import Mathlib

/-!
Verification development for the player power-ranking dashboard
(`src/main.py`).  The eight numeric attribute columns, the `load_data`
normalization loop, the four selectable scoring formulas, the pandas
min-method ranking, and the filter/truncate display pipeline are embedded
shallowly.  Python floats are modelled as exact rationals (every literal
weight in the source is an exact decimal) and pandas cells that may be
missing or non-numeric are modelled explicitly.  `round(x, 2)` is modelled
as rounding half up at the second decimal; the spec allows either tie
direction and no statement below depends on a half-cent tie.
-/

/-- The eight numeric attribute columns handled by `load_data`. -/
inductive Attr where
  | PWR | Speed | Shoot | Dribble | Pass | Defend | Explosiveness | Goalkeeping
deriving DecidableEq, Repr

/-- A raw CSV cell as seen before numeric coercion: a number, a
non-numeric string, or a missing value (NaN). -/
inductive RawCell where
  | num (q : ℚ)
  | txt (s : String)
  | na
deriving DecidableEq, Repr

/-- `pd.to_numeric(.., errors="coerce")` on one cell: numbers survive,
anything that fails numeric coercion becomes NaN (here `none`). -/
def toNumeric : RawCell → Option ℚ
  | RawCell.num q => some q
  | RawCell.txt _ => none
  | RawCell.na => none

/-- A raw table: which of the eight attribute columns are present in the
CSV, and the rows (each row gives the raw cell of each attribute column;
for a column not present the value is irrelevant junk).  Non-attribute
columns are untouched by the normalization loop and are not modelled. -/
@[ext]
structure RawTable where
  present : Attr → Bool
  rows : List (Attr → RawCell)

/-- The `numeric_cols` list of `load_data`, in source order. -/
def numericCols : List Attr :=
  [Attr.PWR, Attr.Speed, Attr.Shoot, Attr.Dribble, Attr.Pass,
   Attr.Defend, Attr.Explosiveness, Attr.Goalkeeping]

/-- One iteration of the `for col in numeric_cols` loop of `load_data`:
if the column is absent it is first created with every value `0`, then the
column is coerced with `pd.to_numeric(..., errors="coerce").fillna(0)`. -/
def normStep (t : RawTable) (c : Attr) : RawTable :=
  let t1 : RawTable :=
    if t.present c = true then t
    else { present := fun d => if d = c then true else t.present d,
           rows := t.rows.map fun r => fun d =>
             if d = c then RawCell.num 0 else r d }
  { present := t1.present,
    rows := t1.rows.map fun r => fun d =>
      if d = c then RawCell.num ((toNumeric (r c)).getD 0) else r d }

/-- The whole normalization loop of `load_data`. -/
def normalizeT (t : RawTable) : RawTable :=
  numericCols.foldl normStep t

/-- The value a normalized cell ends up holding: coercion with default 0
when the column was present, the synthesized 0 otherwise. -/
def normCell (pres : Attr → Bool) (r : Attr → RawCell) (c : Attr) : ℚ :=
  if pres c then (toNumeric (r c)).getD 0 else 0

theorem normStep_present (t : RawTable) (c : Attr) :
    (normStep t c).present = fun d => if d = c then true else t.present d := by
  by_cases h : t.present c = true
  · funext d
    by_cases hd : d = c <;> simp [normStep, h, hd]
  · funext d
    simp [normStep, h]

theorem normStep_rows (t : RawTable) (c : Attr) :
    (normStep t c).rows = t.rows.map fun r => fun d =>
      if d = c then
        RawCell.num ((toNumeric (if t.present c then r c else RawCell.num 0)).getD 0)
      else r d := by
  by_cases h : t.present c = true
  · simp only [normStep, if_pos h, h, if_true]
  · simp only [normStep, if_neg h, List.map_map, eq_self_iff_true]
    apply List.map_congr_left
    intro r _
    funext d
    by_cases hd : d = c <;> simp [Function.comp, hd, h]

/-- After the loop every one of the eight columns is present. -/
theorem normalizeT_present (t : RawTable) (c : Attr) :
    (normalizeT t).present c = true := by
  simp only [normalizeT, numericCols, List.foldl]
  simp only [normStep_present]
  cases c <;> simp

/-- Closed form of the whole normalization loop on the rows. -/
theorem normalizeT_rows (t : RawTable) :
    (normalizeT t).rows =
      t.rows.map fun r => fun c => RawCell.num (normCell t.present r c) := by
  simp only [normalizeT, numericCols, List.foldl]
  simp only [normStep_rows, normStep_present, List.map_map]
  apply List.map_congr_left
  intro r _
  funext c
  cases c <;> simp [Function.comp, normCell] <;> split <;> simp [toNumeric]

theorem normalizeT_length (t : RawTable) :
    (normalizeT t).rows.length = t.rows.length := by
  rw [normalizeT_rows]
  exact List.length_map _ _

/-- A one-row table whose only present attribute column is `PWR`, holding
the (perfectly numeric) value `-1`. -/
def negTable : RawTable :=
  { present := fun c => decide (c = Attr.PWR),
    rows := [fun _ => RawCell.num (-1)] }

/-- Claim C1 (counterexample): on a raw table whose `PWR` column holds the
numeric value `-1`, normalization keeps the cell at `-1`, which is
negative — refuting the claim that every cell of the returned table is
`≥ 0`.  `pd.to_numeric` coerces `-1` successfully and `fillna(0)` leaves
it alone; nothing in `load_data` clamps negative values. -/
theorem claim_C1_counterexample :
    ((normalizeT negTable).rows.map fun r => r Attr.PWR) = [RawCell.num (-1)]
    ∧ ((-1 : ℚ) < 0) := by
  constructor
  · rw [normalizeT_rows]
    simp [negTable, normCell, toNumeric]
  · norm_num

/-- Claim C1 (amended): normalization keeps every row, makes all eight
attribute columns present, and every cell of those columns a finite
number: an absent column is synthesized with every value 0, a cell that
fails numeric coercion becomes 0, and a successfully coerced cell keeps
its numeric value (so cells are `≥ 0` whenever every numeric source cell
is `≥ 0`, but a negative numeric source value is preserved, not
clamped). -/
theorem claim_C1_normalization_totality (t : RawTable) :
    (normalizeT t).rows.length = t.rows.length
    ∧ (∀ c, (normalizeT t).present c = true)
    ∧ (normalizeT t).rows =
        t.rows.map (fun r => fun c => RawCell.num (normCell t.present r c))
    ∧ (∀ r : Attr → RawCell, ∀ c : Attr,
        t.present c = false → normCell t.present r c = 0)
    ∧ (∀ r : Attr → RawCell, ∀ c : Attr,
        toNumeric (r c) = none → normCell t.present r c = 0)
    ∧ (∀ r : Attr → RawCell, ∀ c : Attr, ∀ q : ℚ,
        r c = RawCell.num q → normCell t.present r c = q ∨ normCell t.present r c = 0)
    ∧ (∀ r : Attr → RawCell, ∀ c : Attr,
        (∀ q : ℚ, r c = RawCell.num q → 0 ≤ q) → 0 ≤ normCell t.present r c) := by
  refine ⟨normalizeT_length t, normalizeT_present t, normalizeT_rows t, ?_, ?_, ?_, ?_⟩
  · intro r c hc
    simp [normCell, hc]
  · intro r c hc
    by_cases h : t.present c = true <;> simp [normCell, h, hc]
  · intro r c q hq
    by_cases h : t.present c = true <;> simp [normCell, h, hq, toNumeric]
  · intro r c hpos
    by_cases h : t.present c = true
    · cases hc : r c with
      | num q => simpa [normCell, h, hc, toNumeric] using hpos q hc
      | txt s => simp [normCell, h, hc, toNumeric]
      | na => simp [normCell, h, hc, toNumeric]
    · simp [normCell, h]

/-- A concrete sample: one row with a present non-numeric `Speed` column
and everything else absent. -/
def sampleRaw : RawTable :=
  { present := fun c => decide (c = Attr.Speed),
    rows := [fun _ => RawCell.txt "n/a"] }

/-- Witness for C1: evaluating the amended claim on `sampleRaw`. -/
theorem claim_C1_normalization_totality_witness :
    (normalizeT sampleRaw).rows.length = sampleRaw.rows.length
    ∧ (∀ c, (normalizeT sampleRaw).present c = true)
    ∧ normCell sampleRaw.present (fun _ => RawCell.txt "n/a") Attr.Speed = 0
    ∧ 0 ≤ normCell sampleRaw.present (fun _ => RawCell.txt "n/a") Attr.PWR := by
  obtain ⟨h1, h2, _, _, h5, _, h7⟩ := claim_C1_normalization_totality sampleRaw
  exact ⟨h1, h2, h5 _ _ (by decide), h7 _ _ (by intro q hq; cases hq)⟩

/-- Claim C9: the `load_data` normalization loop is idempotent —
normalizing an already-normalized table changes nothing. -/
theorem claim_C9_normalize_idempotent (t : RawTable) :
    normalizeT (normalizeT t) = normalizeT t := by
  have h1 : (normalizeT (normalizeT t)).present = (normalizeT t).present := by
    funext c
    rw [normalizeT_present, normalizeT_present]
  have h2 : (normalizeT (normalizeT t)).rows = (normalizeT t).rows := by
    rw [normalizeT_rows (normalizeT t), normalizeT_rows t, List.map_map]
    apply List.map_congr_left
    intro r _
    funext c
    simp [Function.comp, normCell, normalizeT_present t, toNumeric]
  exact RawTable.ext h1 h2

/-! ## Scoring engine (`compute_power_ranking_ml`, `compute_power_ranking_exact`
and the two inline lambdas of the formula selector) -/

/-- A value of a non-numeric column (`Name`, `Pos`): a string, a missing
value (NaN), or a stray number. -/
inductive PValue where
  | str (s : String)
  | nanV
  | numV (q : ℚ)
deriving DecidableEq, Repr

/-- A normalized player record as the scoring functions see it: the
`Name` and `Pos` columns may be absent from the table (`none`, in which
case `row[col]` raises a `KeyError` — `load_data` only guarantees the
eight numeric columns), and the eight attribute columns are numeric. -/
structure Row where
  name : Option PValue
  pos : Option PValue
  attr : Attr → ℚ

/-- `row[col]` on a possibly-absent column: a `KeyError` when absent. -/
def colGet (v : Option PValue) (col : String) : Except String PValue :=
  match v with
  | some x => Except.ok x
  | none => Except.error ("KeyError: " ++ col)

/-- Python `row["Pos"] == "GK"`: only the exact string compares equal;
NaN or a number is never equal to a string. -/
def isGKTag (v : PValue) : Bool :=
  v == PValue.str "GK"

/-- Python `round(x, 2)` modelled on exact rationals, rounding half up at
the second decimal (ties at a half-cent never occur in any statement
below, and the spec allows either tie direction). -/
def round2 (q : ℚ) : ℚ :=
  (⌊q * 100 + 1 / 2⌋ : ℚ) / 100

/-- The `stats` list of `compute_power_ranking_ml`, in source order. -/
def statsList (r : Row) : List ℚ :=
  [r.attr Attr.PWR, r.attr Attr.Speed, r.attr Attr.Shoot, r.attr Attr.Dribble,
   r.attr Attr.Pass, r.attr Attr.Defend, r.attr Attr.Explosiveness]

/-- The goalkeeper branch of `compute_power_ranking_ml`:
`round(PWR*0.30 + Goalkeeping*0.35 + Explosiveness*0.35, 2)`. -/
def gkWeightSet (r : Row) : ℚ :=
  round2 (r.attr Attr.PWR * 0.30 + r.attr Attr.Goalkeeping * 0.35
    + r.attr Attr.Explosiveness * 0.35)

/-- `compute_power_ranking_ml`, parameterized by the module-level
`WEIGHTS` list and `INTERCEPT` (regression-fitted or the hardcoded
fallback).  The outfield loop `for i, weight in enumerate(WEIGHTS)` adds
`stats[i] * weight` onto the intercept; the source always supplies seven
weights, matching the seven outfield stats. -/
def mlScore (ws : List ℚ) (intercept : ℚ) (r : Row) : Except String ℚ := do
  let p ← colGet r.pos "Pos"
  if isGKTag p then
    pure (gkWeightSet r)
  else
    pure (round2 ((List.zipWith (fun s w => s * w) (statsList r) ws).foldl
      (fun a b => a + b) intercept))

/-- The hardcoded fallback `WEIGHTS` (order: PWR, Speed, Shoot, Dribble,
Pass, Defend, Explosiveness) used when sklearn is unavailable. -/
def fallbackWeights : List ℚ :=
  [0.25, 0.14, 0.18, 0.12, 0.05, 0.04, 0.22]

/-- The "High Explosiveness Focus" lambda: the weighted sum for outfield
records, the bare `row["PWR"]` (no rounding) for goalkeepers. -/
def highExplScore (r : Row) : Except String ℚ := do
  let p ← colGet r.pos "Pos"
  if isGKTag p then
    pure (r.attr Attr.PWR)
  else
    pure (round2 (r.attr Attr.PWR * 0.20 + r.attr Attr.Explosiveness * 0.35
      + r.attr Attr.Shoot * 0.20 + r.attr Attr.Speed * 0.15
      + r.attr Attr.Dribble * 0.10))

/-- The "Balanced Weighted" lambda: the weighted sum for outfield
records, the bare `row["PWR"]` (no rounding) for goalkeepers. -/
def balancedScore (r : Row) : Except String ℚ := do
  let p ← colGet r.pos "Pos"
  if isGKTag p then
    pure (r.attr Attr.PWR)
  else
    pure (round2 (r.attr Attr.PWR * 0.25 + r.attr Attr.Speed * 0.15
      + r.attr Attr.Shoot * 0.20 + r.attr Attr.Dribble * 0.15
      + r.attr Attr.Pass * 0.10 + r.attr Attr.Defend * 0.05
      + r.attr Attr.Explosiveness * 0.10))

/-- `KNOWN_VALUES`, in source (insertion) order. -/
def knownValues : List (String × ℚ) :=
  [("Luis Diaz", 101.41), ("Mohamed Salah", 100.94), ("Erling Haaland", 100.05),
   ("Cristiano Ronaldo", 100.05), ("Lionel Messi", 99.58), ("Bukayo Saka", 99.48),
   ("Harry Kane", 99.11), ("Viktor Gyökeres", 98.13)]

/-- One entry of `KNOWN_STATS` as a function on the seven outfield
attributes (Goalkeeping never appears in those dicts; it is never read
from them either). -/
def mkStats (pwr spd sht drb pas dfd exp : ℚ) : Attr → ℚ :=
  fun a => match a with
  | Attr.PWR => pwr
  | Attr.Speed => spd
  | Attr.Shoot => sht
  | Attr.Dribble => drb
  | Attr.Pass => pas
  | Attr.Defend => dfd
  | Attr.Explosiveness => exp
  | Attr.Goalkeeping => 0

/-- `KNOWN_STATS`, in source (insertion) order. -/
def knownStats : List (String × (Attr → ℚ)) :=
  [("Luis Diaz", mkStats 100 100 99 99 91 70 101),
   ("Mohamed Salah", mkStats 100 98 99 97 97 75 98),
   ("Erling Haaland", mkStats 100 99 102 96 91 83 90),
   ("Cristiano Ronaldo", mkStats 100 95 102 99 98 76 90),
   ("Lionel Messi", mkStats 100 91 100 100 102 76 92),
   ("Bukayo Saka", mkStats 99 95 97 98 94 78 97),
   ("Harry Kane", mkStats 99 85 104 96 100 71 95),
   ("Viktor Gyökeres", mkStats 97 99 96 93 87 79 95)]

/-- The seven stats iterated by the similarity and adjustment loops of
`compute_power_ranking_exact`, in source order. -/
def outfieldAttrs : List Attr :=
  [Attr.PWR, Attr.Speed, Attr.Shoot, Attr.Dribble, Attr.Pass,
   Attr.Defend, Attr.Explosiveness]

/-- The similarity accumulation of `compute_power_ranking_exact`; the
`stat in known_stats and stat in row` guard is always true after
normalization (all seven keys exist on both sides). -/
def similarity (r : Row) (ks : Attr → ℚ) : ℚ :=
  (outfieldAttrs.map fun s => 1 / (1 + |r.attr s - ks s|)).foldl
    (fun a b => a + b) 0

/-- The best-match loop: `best_match = None`, `best_similarity = -1`,
updated on strictly greater similarity, iterating `KNOWN_STATS` in
insertion order. -/
def bestMatch (r : Row) : Option String × ℚ :=
  knownStats.foldl
    (fun acc p => if similarity r p.2 > acc.2 then (some p.1, similarity r p.2) else acc)
    (none, -1)

/-- The adjustment accumulation against the matched player's stats. -/
def adjustment (r : Row) (base : Attr → ℚ) : ℚ :=
  (outfieldAttrs.map fun s => (r.attr s - base s) * 0.25).foldl
    (fun a b => a + b) 0

/-- Dictionary membership test `player_name in KNOWN_VALUES` followed by
lookup: only a string key can be present. -/
def knownLookup (v : PValue) : Option ℚ :=
  match v with
  | PValue.str s => knownValues.lookup s
  | _ => none

/-- `compute_power_ranking_exact`: a known name short-circuits to the
hardcoded value (unrounded); otherwise a non-GK record gets the
nearest-known-player base plus adjustment (`best_match` is always set,
and the `KNOWN_VALUES[best_match]` / `KNOWN_STATS[best_match]` lookups
always succeed, since the keys of the two dicts coincide; `getD`
supplies the value exactly on those keys); a GK record, or the
impossible matchless case, falls through to `compute_power_ranking_ml`. -/
def exactScore (ws : List ℚ) (intercept : ℚ) (r : Row) : Except String ℚ := do
  let nm ← colGet r.name "Name"
  match knownLookup nm with
  | some v => pure v
  | none => do
    let p ← colGet r.pos "Pos"
    if isGKTag p then
      mlScore ws intercept r
    else
      match (bestMatch r).1 with
      | some bm =>
          pure (round2 ((knownValues.lookup bm).getD 0
            + adjustment r ((knownStats.lookup bm).getD fun _ => 0)))
      | none => mlScore ws intercept r

/-- The outfield record of the spec's weighted-sum example. -/
def c5Row : Row :=
  { name := some (PValue.str "Mohamed Salah"),
    pos := some (PValue.str "FW"),
    attr := mkStats 100 98 99 97 97 75 98 }

/-- Claim C5: under the Balanced Weighted formula, an outfield record with
PWR=100, Speed=98, Shoot=99, Dribble=97, Pass=97, Defend=75,
Explosiveness=98 scores 97.3 after rounding to 2 decimals. -/
theorem claim_C5_balanced_example :
    balancedScore c5Row = Except.ok (97.3 : ℚ) := by
  norm_num [balancedScore, c5Row, colGet, isGKTag, mkStats, round2,
    bind, Except.bind, pure, Except.pure]
  decide

/-- Helper: the known-name short circuit of `compute_power_ranking_exact`. -/
theorem exactScore_known (ws : List ℚ) (intercept : ℚ)
    (r : Row) (s : String) (v : ℚ)
    (hname : r.name = some (PValue.str s))
    (hv : knownValues.lookup s = some v) :
    exactScore ws intercept r = Except.ok v := by
  simp [exactScore, colGet, hname, knownLookup, hv, bind, Except.bind,
    pure, Except.pure]

/-- Claim C10: under the Exact Match formula, a record whose Name is one
of the eight hardcoded known players receives exactly the hardcoded
target value, regardless of its Pos (the name test precedes the role
test) and regardless of all attribute values. -/
theorem claim_C10_exact_known_override (ws : List ℚ) (intercept : ℚ)
    (r : Row) (s : String) (v : ℚ)
    (hname : r.name = some (PValue.str s))
    (hv : knownValues.lookup s = some v) :
    exactScore ws intercept r = Except.ok v :=
  exactScore_known ws intercept r s v hname hv

/-- A goalkeeper record carrying a known player's name and arbitrary
attributes. -/
def c10Row : Row :=
  { name := some (PValue.str "Luis Diaz"),
    pos := some (PValue.str "GK"),
    attr := mkStats 1 2 3 4 5 6 7 }

/-- Witness for C10: a GK record named "Luis Diaz" with junk attributes
receives the hardcoded 101.41. -/
theorem claim_C10_exact_known_override_witness :
    exactScore fallbackWeights 0 c10Row = Except.ok (101.41 : ℚ) :=
  claim_C10_exact_known_override fallbackWeights 0 c10Row "Luis Diaz"
    (101.41 : ℚ) rfl (by simp [knownValues, List.lookup])

/-- Attributes of a goalkeeper record: PWR 80, Explosiveness 90,
Goalkeeping `g`, everything else 50. -/
def gkStats (g : ℚ) : Attr → ℚ :=
  fun a => match a with
  | Attr.PWR => 80
  | Attr.Explosiveness => 90
  | Attr.Goalkeeping => g
  | _ => 50

/-- Claim C2 (counterexample): under the selectable "Balanced Weighted"
formula a GK record's score is its bare PWR: two GK records that differ
only in Goalkeeping (100 vs 0) both score 80, and neither equals the
goalkeeper weight-set value 90.5 — so the score is not a weighted
combination that includes the Goalkeeping attribute under every
selectable variant. -/
theorem claim_C2_counterexample :
    balancedScore
        { name := none, pos := some (PValue.str "GK"), attr := gkStats 100 }
      = Except.ok (80 : ℚ)
    ∧ balancedScore
        { name := none, pos := some (PValue.str "GK"), attr := gkStats 0 }
      = Except.ok (80 : ℚ)
    ∧ gkWeightSet
        { name := none, pos := some (PValue.str "GK"), attr := gkStats 100 }
      = (90.5 : ℚ)
    ∧ (80 : ℚ) ≠ (90.5 : ℚ) := by
  refine ⟨?_, ?_, ?_, by norm_num⟩ <;>
    norm_num [balancedScore, gkWeightSet, gkStats, colGet, isGKTag, round2,
      bind, Except.bind, pure, Except.pure]

/-- Claim C2 (amended): a GK record never uses the outfield weight set,
but only the ML-Derived Weights formula (and the Exact Match fallback for
a GK whose name is unknown) applies the goalkeeper weight set
{PWR 0.30, Goalkeeping 0.35, Explosiveness 0.35}; under High
Explosiveness Focus and Balanced Weighted a GK record's score is its bare
PWR (Goalkeeping ignored), and under Exact Match a GK whose Name is a
known player receives the hardcoded value, ignoring role and
attributes. -/
theorem claim_C2_gk_branch_amended (ws : List ℚ) (intercept : ℚ) (r : Row)
    (p : PValue) (hpos : r.pos = some p) (hgk : isGKTag p = true) :
    mlScore ws intercept r = Except.ok (gkWeightSet r)
    ∧ highExplScore r = Except.ok (r.attr Attr.PWR)
    ∧ balancedScore r = Except.ok (r.attr Attr.PWR)
    ∧ (∀ nm, r.name = some nm → knownLookup nm = none →
        exactScore ws intercept r = Except.ok (gkWeightSet r))
    ∧ (∀ s v, r.name = some (PValue.str s) → knownValues.lookup s = some v →
        exactScore ws intercept r = Except.ok v) := by
  refine ⟨?_, ?_, ?_, ?_, ?_⟩
  · simp [mlScore, colGet, hpos, hgk, bind, Except.bind, pure, Except.pure]
  · simp [highExplScore, colGet, hpos, hgk, bind, Except.bind, pure, Except.pure]
  · simp [balancedScore, colGet, hpos, hgk, bind, Except.bind, pure, Except.pure]
  · intro nm hname hnone
    simp [exactScore, colGet, hname, hnone, hpos, hgk, mlScore,
      bind, Except.bind, pure, Except.pure]
  · intro s v hname hv
    exact exactScore_known ws intercept r s v hname hv

/-- A goalkeeper record with an unknown name. -/
def gkRowC : Row :=
  { name := some (PValue.str "Some Keeper"),
    pos := some (PValue.str "GK"),
    attr := mkStats 80 50 50 50 50 50 90 }

/-- Witness for the amended C2: evaluating the per-variant goalkeeper
behavior on a concrete GK record (note `mkStats` sets Goalkeeping 0, so
the goalkeeper weight set gives round2(80*0.30 + 0*0.35 + 90*0.35) =
55.5, while the two lambdas give the bare PWR 80). -/
theorem claim_C2_gk_branch_amended_witness :
    mlScore fallbackWeights 0 gkRowC = Except.ok (55.5 : ℚ)
    ∧ highExplScore gkRowC = Except.ok (80 : ℚ)
    ∧ balancedScore gkRowC = Except.ok (80 : ℚ)
    ∧ exactScore fallbackWeights 0 gkRowC = Except.ok (55.5 : ℚ) := by
  obtain ⟨h1, h2, h3, h4, _⟩ :=
    claim_C2_gk_branch_amended fallbackWeights 0 gkRowC
      (PValue.str "GK") rfl (by decide)
  have hg : gkWeightSet gkRowC = (55.5 : ℚ) := by
    norm_num [gkWeightSet, gkRowC, mkStats, round2]
  refine ⟨?_, ?_, ?_, ?_⟩
  · rw [h1, hg]
  · rw [h2]; norm_num [gkRowC, mkStats]
  · rw [h3]; norm_num [gkRowC, mkStats]
  · rw [h4 (PValue.str "Some Keeper") rfl (by simp [knownLookup, knownValues, List.lookup]), hg]

/-- A record from a table that has no `Pos` column at all. -/
def noPosRow : Row :=
  { name := some (PValue.str "Nameless"),
    pos := none,
    attr := mkStats 1 2 3 4 5 6 7 }

/-- Claim C6 (counterexample): `load_data` synthesizes only the eight
numeric columns, never `Pos`; on a record from a table with no `Pos`
column, `row["Pos"]` in `compute_power_ranking_ml` raises a `KeyError`
instead of defaulting to the outfield branch. -/
theorem claim_C6_counterexample :
    mlScore fallbackWeights 0 noPosRow = Except.error "KeyError: Pos" := by
  simp [mlScore, noPosRow, colGet, bind, Except.bind]

/-- Claim C6 (amended): whenever the `Pos` column is present, the scoring
function never fails: any present value other than the string "GK"
(including the empty string, NaN, or a stray number) takes the outfield
branch and yields the outfield weighted sum; but a record from a table
with no `Pos` column raises a `KeyError`. -/
theorem claim_C6_outfield_default_amended (ws : List ℚ) (intercept : ℚ)
    (r : Row) (p : PValue) (hpos : r.pos = some p) :
    (∃ q : ℚ, mlScore ws intercept r = Except.ok q)
    ∧ (isGKTag p = false →
        mlScore ws intercept r = Except.ok (round2
          ((List.zipWith (fun s w => s * w) (statsList r) ws).foldl
            (fun a b => a + b) intercept))) := by
  constructor
  · by_cases h : isGKTag p = true
    · exact ⟨gkWeightSet r, by simp [mlScore, colGet, hpos, h, bind, Except.bind, pure, Except.pure]⟩
    · exact ⟨round2 ((List.zipWith (fun s w => s * w) (statsList r) ws).foldl
        (fun a b => a + b) intercept),
        by simp [mlScore, colGet, hpos, h, bind, Except.bind, pure, Except.pure]⟩
  · intro h
    simp [mlScore, colGet, hpos, h, bind, Except.bind, pure, Except.pure]

/-- A record whose `Pos` cell is NaN (missing value in a present column). -/
def nanPosRow : Row :=
  { name := none,
    pos := some PValue.nanV,
    attr := mkStats 100 100 100 100 100 100 100 }

/-- Witness for the amended C6: a NaN `Pos` takes the outfield branch;
with the fallback weights (which sum to 1) an all-100 record scores
100. -/
theorem claim_C6_outfield_default_amended_witness :
    mlScore fallbackWeights 0 nanPosRow = Except.ok (100 : ℚ) := by
  have h := (claim_C6_outfield_default_amended fallbackWeights 0 nanPosRow
    PValue.nanV rfl).2 (by decide)
  rw [h]
  norm_num [statsList, nanPosRow, mkStats, fallbackWeights, round2]

/-- Modelled from the spec: the baseline-relative bonus shape of §4.2 —
a base value `b` and per-attribute weights, with score
`b + Σ (attribute_i - b) * w_i` over the seven outfield attributes. -/
def bonusShapeSpec (b w1 w2 w3 w4 w5 w6 w7 : ℚ) (r : Row) : ℚ :=
  b + ((r.attr Attr.PWR - b) * w1 + (r.attr Attr.Speed - b) * w2
    + (r.attr Attr.Shoot - b) * w3 + (r.attr Attr.Dribble - b) * w4
    + (r.attr Attr.Pass - b) * w5 + (r.attr Attr.Defend - b) * w6
    + (r.attr Attr.Explosiveness - b) * w7)

/-- The record of the spec's bonus-shape example: Explosiveness 101,
Shoot 99, all other attributes 0. -/
def c4Row : Row :=
  { name := some (PValue.str "Nobody"),
    pos := some (PValue.str "FW"),
    attr := mkStats 0 0 99 0 0 0 101 }

/-- Claim C4: the engine expresses the baseline-relative bonus shape via
configuration: choosing `WEIGHTS = [w1..w7]` and
`INTERCEPT = b * (1 - Σ w_i)` makes `compute_power_ranking_ml` compute
(the 2-decimal rounding of) `b + Σ (attribute_i - b) * w_i` on every
outfield record; in particular, for base 100, weights
{Shoot 0.18, Explosiveness 0.22} and attributes Shoot 99,
Explosiveness 101, the computed score is 100.04. -/
theorem claim_C4_bonus_shape :
    (∀ (b w1 w2 w3 w4 w5 w6 w7 : ℚ) (r : Row) (p : PValue),
      r.pos = some p → isGKTag p = false →
        mlScore [w1, w2, w3, w4, w5, w6, w7]
            (b * (1 - (w1 + w2 + w3 + w4 + w5 + w6 + w7))) r
          = Except.ok (round2 (bonusShapeSpec b w1 w2 w3 w4 w5 w6 w7 r)))
    ∧ mlScore [0, 0, 0.18, 0, 0, 0, 0.22]
        (100 * (1 - ((0 : ℚ) + 0 + 0.18 + 0 + 0 + 0 + 0.22))) c4Row
      = Except.ok (100.04 : ℚ)
    ∧ bonusShapeSpec 100 0 0 0.18 0 0 0 0.22 c4Row = (100.04 : ℚ) := by
  have hgen : ∀ (b w1 w2 w3 w4 w5 w6 w7 : ℚ) (r : Row) (p : PValue),
      r.pos = some p → isGKTag p = false →
        mlScore [w1, w2, w3, w4, w5, w6, w7]
            (b * (1 - (w1 + w2 + w3 + w4 + w5 + w6 + w7))) r
          = Except.ok (round2 (bonusShapeSpec b w1 w2 w3 w4 w5 w6 w7 r)) := by
    intro b w1 w2 w3 w4 w5 w6 w7 r p hpos hgk
    simp only [mlScore, colGet, hpos, hgk, statsList, bind, Except.bind,
      pure, Except.pure, List.zipWith, List.foldl, Bool.false_eq_true,
      if_false, ite_false]
    congr 2
    simp only [bonusShapeSpec]
    ring
  have hspec : bonusShapeSpec 100 0 0 0.18 0 0 0 0.22 c4Row = (100.04 : ℚ) := by
    norm_num [bonusShapeSpec, c4Row, mkStats]
  refine ⟨hgen, ?_, hspec⟩
  rw [hgen 100 0 0 0.18 0 0 0 0.22 c4Row (PValue.str "FW") rfl (by decide), hspec]
  norm_num [round2]

/-- Witness for C4: the bonus-shape configuration of the example, applied
to the example record. -/
theorem claim_C4_bonus_shape_witness :
    mlScore [0, 0, 0.18, 0, 0, 0, 0.22]
        (100 * (1 - ((0 : ℚ) + 0 + 0.18 + 0 + 0 + 0 + 0.22))) c4Row
      = Except.ok (round2 (bonusShapeSpec 100 0 0 0.18 0 0 0 0.22 c4Row)) :=
  claim_C4_bonus_shape.1 100 0 0 0.18 0 0 0 0.22 c4Row (PValue.str "FW")
    rfl (by decide)

/-! ## Ranking, filtering and truncation
(`df["Rank"] = df["Power Ranking"].rank(ascending=False, method="min")`,
`df.sort_values("Rank")`, the two `isin` filters, and
`filtered_df.head(display_count)`) -/

/-- A scored row as the ranking/display stage sees it: its
`Power Ranking` value and the two categorical columns used by the
filters. -/
structure SRow where
  pr : ℚ
  pos : String
  rarity : String
deriving DecidableEq, Repr

/-- A row with its attached `Rank`. -/
structure RankedRow where
  row : SRow
  rank : ℕ
deriving DecidableEq, Repr

instance : DecidableRel (fun a b : ℚ => a ≥ b) :=
  fun a b => inferInstanceAs (Decidable (b ≤ a))

/-- The scores in descending order (pandas ranks by sorting; the concrete
sort is irrelevant, only sortedness and permutation are used). -/
def sortedDesc (xs : List ℚ) : List ℚ :=
  List.insertionSort (fun a b : ℚ => a ≥ b) xs

/-- `Series.rank(ascending=False, method="min")` for one value: tied
values all receive the first (smallest) of the positions their group
occupies in the descending order; `.astype(int)` is the identity since
min-ranks are whole numbers. -/
def rankMin (xs : List ℚ) (v : ℚ) : ℕ :=
  (sortedDesc xs).findIdx (fun x => decide (x = v)) + 1

/-- The `Power Ranking` column. -/
def prList (df : List SRow) : List ℚ :=
  df.map SRow.pr

/-- `df["Rank"] = df["Power Ranking"].rank(ascending=False, method="min")`:
every row gets the min-rank of its score within the full column. -/
def addRank (df : List SRow) : List RankedRow :=
  df.map fun r => { row := r, rank := rankMin (prList df) r.pr }

instance : DecidableRel (fun a b : RankedRow => a.rank ≤ b.rank) :=
  fun a b => Nat.decLe a.rank b.rank

instance : IsTotal RankedRow (fun a b => a.rank ≤ b.rank) :=
  ⟨fun a b => Nat.le_total a.rank b.rank⟩

instance : IsTrans RankedRow (fun a b => a.rank ≤ b.rank) :=
  ⟨fun _ _ _ h1 h2 => le_trans h1 h2⟩

/-- `df = df.sort_values("Rank")`. -/
def sortByRank (l : List RankedRow) : List RankedRow :=
  List.insertionSort (fun a b : RankedRow => a.rank ≤ b.rank) l

/-- The two sidebar filters: an empty multiselect means no filtering,
otherwise `isin` keeps the rows whose value occurs in the selection. -/
def applyFilters (posF rarF : List String) (l : List RankedRow) : List RankedRow :=
  let l1 := if posF = [] then l else l.filter fun r => posF.contains r.row.pos
  if rarF = [] then l1 else l1.filter fun r => rarF.contains r.row.rarity

/-- The displayed table: rank, sort, filter, then
`display_count = min(max_rows, len(filtered_df))` and
`filtered_df.head(display_count)`. -/
def displayTable (df : List SRow) (posF rarF : List String) (maxRows : ℕ) :
    List RankedRow :=
  let fl := applyFilters posF rarF (sortByRank (addRank df))
  fl.take (min maxRows fl.length)

/-- In a descending-sorted list the first occurrence of a member sits
right after exactly the strictly larger elements. -/
theorem findIdx_sorted_eq_countP (v : ℚ) :
    ∀ ys : List ℚ, List.Sorted (fun a b : ℚ => a ≥ b) ys → v ∈ ys →
      ys.findIdx (fun x => decide (x = v)) = ys.countP fun x => decide (v < x) := by
  intro ys
  induction ys with
  | nil => intro _ h; cases h
  | cons a tl ih =>
    intro hs hv
    rcases List.sorted_cons.mp hs with ⟨ha, hs1⟩
    by_cases hav : a = v
    · subst hav
      have h0 : tl.countP (fun x => decide (a < x)) = 0 :=
        List.countP_eq_zero.mpr fun x hx => by
          simpa using not_lt.mpr (ha x hx)
      rw [List.findIdx_cons, List.countP_cons]
      simp [h0]
    · have hvtl : v ∈ tl := by
        rcases List.mem_cons.mp hv with h | h
        · exact absurd h.symm hav
        · exact h
      have hva : v < a := lt_of_le_of_ne (ha v hvtl) fun h => hav h.symm
      rw [List.findIdx_cons, List.countP_cons]
      simp [hav, hva, ih hs1 hvtl]

/-- The min-rank of a member value is one plus the number of strictly
greater scores in the column. -/
theorem rankMin_eq (xs : List ℚ) (v : ℚ) (hv : v ∈ xs) :
    rankMin xs v = 1 + xs.countP fun x => decide (v < x) := by
  have hperm := List.perm_insertionSort (fun a b : ℚ => a ≥ b) xs
  have hsort := List.sorted_insertionSort (fun a b : ℚ => a ≥ b) xs
  unfold rankMin sortedDesc
  rw [findIdx_sorted_eq_countP v _ hsort (hperm.mem_iff.mpr hv),
    hperm.countP_eq]
  omega

/-- Counting strictly-above thresholds is strictly monotone when the
larger threshold is itself in the list. -/
theorem countP_lt_of_lt (xs : List ℚ) (a b : ℚ) (hb : b ∈ xs) (hab : a < b) :
    (xs.countP fun x => decide (b < x)) < xs.countP fun x => decide (a < x) := by
  induction xs with
  | nil => cases hb
  | cons c tl ih =>
    have hmono : (tl.countP fun x => decide (b < x)) ≤
        tl.countP fun x => decide (a < x) :=
      List.countP_mono_left fun x _ h => by
        simp only [decide_eq_true_eq] at h ⊢
        exact lt_trans hab h
    rw [List.countP_cons, List.countP_cons]
    rcases List.mem_cons.mp hb with rfl | hbtl
    · simp [lt_irrefl, hab]
      omega
    · have h2 := ih hbtl
      by_cases hc1 : b < c
      · have hc2 : a < c := lt_trans hab hc1
        simp [hc1, hc2]
        omega
      · by_cases hc2 : a < c <;> simp [hc1, hc2] <;> omega

/-- A strictly greater member score receives a strictly smaller
min-rank. -/
theorem rankMin_lt_of_lt (xs : List ℚ) (a b : ℚ) (hax : a ∈ xs) (hbx : b ∈ xs)
    (hab : a < b) : rankMin xs b < rankMin xs a := by
  rw [rankMin_eq xs a hax, rankMin_eq xs b hbx]
  have := countP_lt_of_lt xs a b hbx hab
  omega

/-- Claim C3: in the ranked table, each record's Rank is one plus the
number of records with strictly greater score; hence if exactly `k`
records strictly exceed a score, every record with that score gets rank
`k+1`; a strictly greater score gives a smaller-or-equal rank; equal
scores give equal ranks. -/
theorem claim_C3_min_rank_law (df : List SRow) (a b : RankedRow)
    (ha : a ∈ addRank df) (hb : b ∈ addRank df) :
    a.rank = 1 + (df.countP fun r => decide (a.row.pr < r.pr))
    ∧ (∀ k, (df.countP fun r => decide (a.row.pr < r.pr)) = k → a.rank = k + 1)
    ∧ (b.row.pr < a.row.pr → a.rank ≤ b.rank)
    ∧ (a.row.pr = b.row.pr → a.rank = b.rank) := by
  obtain ⟨ra, hra, rfl⟩ := List.mem_map.mp ha
  obtain ⟨rb, hrb, rfl⟩ := List.mem_map.mp hb
  have hmema : ra.pr ∈ prList df := List.mem_map_of_mem SRow.pr hra
  have hmemb : rb.pr ∈ prList df := List.mem_map_of_mem SRow.pr hrb
  have hchar : ∀ r : SRow, r.pr ∈ prList df →
      rankMin (prList df) r.pr = 1 + (df.countP fun x => decide (r.pr < x.pr)) := by
    intro r hr
    rw [rankMin_eq (prList df) r.pr hr]
    unfold prList
    rw [List.countP_map]
    rfl
  refine ⟨hchar ra hmema, ?_, ?_, ?_⟩
  · intro k hk
    rw [hchar ra hmema, hk, Nat.add_comm]
  · intro hlt
    exact le_of_lt (rankMin_lt_of_lt (prList df) rb.pr ra.pr hmemb hmema hlt)
  · intro heq
    simp only at heq
    rw [heq]

/-- Filtering only removes rows. -/
theorem applyFilters_sublist (posF rarF : List String) (l : List RankedRow) :
    List.Sublist (applyFilters posF rarF l) l := by
  unfold applyFilters
  split
  · split
    · exact List.Sublist.refl l
    · exact List.filter_sublist l
  · split
    · exact List.filter_sublist l
    · exact (List.filter_sublist _).trans (List.filter_sublist l)

/-- Claim C7: Rank is attached over the full unfiltered scored table;
every displayed record is one of the fully-ranked records, with its Rank
equal to its min-rank within the whole score column (so filtering only
subsets already-ranked rows and displayed ranks may have gaps). -/
theorem claim_C7_rank_over_full_table (df : List SRow) (posF rarF : List String)
    (n : ℕ) (x : RankedRow) (hx : x ∈ displayTable df posF rarF n) :
    x ∈ addRank df ∧ x.rank = rankMin (prList df) x.row.pr := by
  have h1 : x ∈ applyFilters posF rarF (sortByRank (addRank df)) :=
    List.mem_of_mem_take hx
  have h2 : x ∈ sortByRank (addRank df) :=
    (applyFilters_sublist posF rarF _).subset h1
  have h3 : x ∈ addRank df :=
    (List.perm_insertionSort (fun a b : RankedRow => a.rank ≤ b.rank) _).mem_iff.mp h2
  refine ⟨h3, ?_⟩
  obtain ⟨r, _, rfl⟩ := List.mem_map.mp h3
  rfl

/-- The filtered, rank-sorted table is descending in score. -/
theorem filtered_sorted_desc (df : List SRow) (posF rarF : List String) :
    (applyFilters posF rarF (sortByRank (addRank df))).Pairwise
      fun a b => b.row.pr ≤ a.row.pr := by
  have hsort : (sortByRank (addRank df)).Pairwise
      fun a b : RankedRow => a.rank ≤ b.rank :=
    List.sorted_insertionSort (fun a b : RankedRow => a.rank ≤ b.rank) _
  have hmem : ∀ y ∈ sortByRank (addRank df), y ∈ addRank df := fun y hy =>
    (List.perm_insertionSort (fun a b : RankedRow => a.rank ≤ b.rank) _).mem_iff.mp hy
  have hp : (sortByRank (addRank df)).Pairwise fun a b => b.row.pr ≤ a.row.pr := by
    refine hsort.imp_of_mem ?_
    intro a b haa hbb hrank
    by_contra hlt
    push_neg at hlt
    obtain ⟨ra, hra, rfl⟩ := List.mem_map.mp (hmem a haa)
    obtain ⟨rb, hrb, rfl⟩ := List.mem_map.mp (hmem b hbb)
    simp only at hlt
    have hstrict := rankMin_lt_of_lt (prList df) ra.pr rb.pr
      (List.mem_map_of_mem SRow.pr hra) (List.mem_map_of_mem SRow.pr hrb) hlt
    simp only at hrank
    omega
  exact hp.sublist (applyFilters_sublist posF rarF _)

/-- `take` with the clamped budget is `take` with the raw budget. -/
theorem take_min_length {α : Type} (n : ℕ) (l : List α) :
    l.take (min n l.length) = l.take n := by
  rcases le_total n l.length with h | h
  · rw [min_eq_left h]
  · rw [min_eq_right h, List.take_length]
    exact (List.take_of_length_le h).symm

/-- Claim C8: truncation to the display budget happens strictly after
ordering and filtering: the display is exactly the `min n len` first rows
of the filtered descending table, and every displayed record scores at
least as high as every filtered record that the truncation dropped. -/
theorem claim_C8_truncation_last (df : List SRow) (posF rarF : List String)
    (n : ℕ) :
    (displayTable df posF rarF n).length
      = min n (applyFilters posF rarF (sortByRank (addRank df))).length
    ∧ displayTable df posF rarF n
      = (applyFilters posF rarF (sortByRank (addRank df))).take n
    ∧ ∀ x ∈ displayTable df posF rarF n,
        ∀ y ∈ (applyFilters posF rarF (sortByRank (addRank df))).drop n,
          y.row.pr ≤ x.row.pr := by
  set fl := applyFilters posF rarF (sortByRank (addRank df)) with hfl
  have hdisp : displayTable df posF rarF n = fl.take n := by
    rw [displayTable, ← hfl, take_min_length]
  refine ⟨?_, hdisp, ?_⟩
  · rw [hdisp, List.length_take]
  · intro x hx y hy
    have hpair : fl.Pairwise fun a b => b.row.pr ≤ a.row.pr :=
      filtered_sorted_desc df posF rarF
    have hsplit : fl.take n ++ fl.drop n = fl := List.take_append_drop n fl
    rw [← hsplit] at hpair
    rw [hdisp] at hx
    exact (List.pairwise_append.mp hpair).2.2 x hx y hy

/-- A concrete two-row scored table. -/
def wdf : List SRow :=
  [{ pr := 2, pos := "FW", rarity := "Epic" },
   { pr := 1, pos := "GK", rarity := "Rare" }]

/-- The first sample row with its attached rank. -/
def wRow1 : RankedRow :=
  { row := { pr := 2, pos := "FW", rarity := "Epic" },
    rank := rankMin (prList wdf) 2 }

/-- The second sample row with its attached rank. -/
def wRow2 : RankedRow :=
  { row := { pr := 1, pos := "GK", rarity := "Rare" },
    rank := rankMin (prList wdf) 1 }

/-- Witness for C3: on the concrete table, the higher-scored row has rank
0+1 = 1 and ranks respect the score order. -/
theorem claim_C3_min_rank_law_witness :
    wRow1.rank = 0 + 1 ∧ wRow1.rank ≤ wRow2.rank := by
  have h := claim_C3_min_rank_law wdf wRow1 wRow2 (by decide) (by decide)
  exact ⟨h.2.1 0 (by decide), h.2.2.1 (by decide)⟩

/-- Witness for C7: the top displayed record of the concrete table is a
fully-ranked record with the full-population rank. -/
theorem claim_C7_rank_over_full_table_witness :
    wRow1 ∈ addRank wdf ∧ wRow1.rank = rankMin (prList wdf) wRow1.row.pr :=
  claim_C7_rank_over_full_table wdf [] [] 10 wRow1 (by decide)

/-- Witness for C8: truncating the concrete table to one row keeps the
higher-scored record and dominates the dropped one. -/
theorem claim_C8_truncation_last_witness :
    (displayTable wdf [] [] 1).length
      = min 1 (applyFilters [] [] (sortByRank (addRank wdf))).length
    ∧ wRow2.row.pr ≤ wRow1.row.pr := by
  have h := claim_C8_truncation_last wdf [] [] 1
  exact ⟨h.1, h.2.2 wRow1 (by decide) wRow2 (by decide)⟩
